import Mathlib

/-! cppmonad: functor, monoid, monad and show instances over the standard containers

A shallow embedding of `src/cppmonad.h`.

* `Vec<A>` (`std::vector`) and `List<A>` (`std::list`) are finite sequences; the
  loops that fill them with `push_back` or a range `insert` at `end()` are kept
  as left folds over the input.
* `Map<A, B>` (`std::map`) is its key-ordered sequence of entries.  The only
  comparison used is `<` on keys, as `std::less` does; `std::map::insert` keeps
  an entry that is already stored under an equivalent key.
* `Maybe<A>` (`boost::optional`) is `Option`, `Either<A, B>` (`boost::variant`)
  is a two-armed sum whose arm is what `boost::get` tests, and
  `Function<A, B>` (`std::function`) is a total pure function.
* `String` (`std::string`) is a character string with `+` as concatenation.

The dispatching templates `fmap`, `empty`, `append`, `mreturn` and
`operator>>=` only forward to the instance for the argument type, so every
embedded instance has a name of its own: `Functor<Vec<A>>::fmap` is
`FunctorVec.fmap`, and so on.  Three instances are ill-formed as written and have
no embedding; the sections on the functor and on the show instances say which.
-/

namespace CppMonad

universe u v w x y z

/-! ## Shapes -/

/-- The shape `Vec<A>`: a `std::vector`, as the sequence of its elements. -/
abbrev Vec (A : Type u) : Type u := List A

/-- The shape `List<A>`: a `std::list`, as the sequence of its elements. -/
abbrev LinkedList (A : Type u) : Type u := List A

/-- The shape `Map<A, B>`: a `std::map`, as the sequence of its entries in iteration order. -/
abbrev Map (K : Type u) (V : Type v) : Type (max u v) := List (K × V)

/-- The shape `Maybe<A>`: a `boost::optional`. -/
abbrev Maybe (A : Type u) : Type u := Option A

/-- The shape `Either<A, B>`: a `boost::variant` with a left arm `A` and a right arm `B`. -/
abbrev Either (A : Type u) (B : Type v) : Type (max u v) := Sum A B

/-- The shape `Function<A, B>`: a `std::function<B(A)>`. -/
abbrev Function (A : Type u) (B : Type v) : Type (max u v) := A → B

/-- The function `id`: returns its argument. -/
def id {T : Type u} (x : T) : T := x

/-- The function `compose`: `std::bind(f, std::bind(g, _1))` calls `g` on the argument and `f` on
the result. -/
def compose {A : Type u} {B : Type v} {C : Type w} (f : Function B C) (g : Function A B) :
    Function A C :=
  fun x => f (g x)

/-! ## Container primitives -/

/-- The member `push_back` of `std::vector` and `std::list`, also what a
`std::back_insert_iterator` does on assignment: one more element at the end. -/
def pushBack {A : Type u} (xs : List A) (a : A) : List A := xs ++ [a]

/-- The range form `res.insert(res.end(), first, last)`: the elements of the range are added at
the end, one after the other. -/
def insertAtEnd {A : Type u} (res : List A) (range : List A) : List A :=
  range.foldl pushBack res

/-- The algorithm `std::transform(first, last, out, f)` with a back inserter as `out`. -/
def transform {A : Type u} {B : Type v} (range : List A) (out : List B) (f : A → B) : List B :=
  range.foldl (fun bs a => pushBack bs (f a)) out

/-- A well-formed `std::map`: the keys of its entries ascend strictly in iteration order. -/
def Map.WF {K : Type u} {V : Type v} [LinearOrder K] (m : Map K V) : Prop :=
  List.Pairwise (fun a b => a.1 < b.1) m

instance {K : Type u} {V : Type v} [LinearOrder K] (m : Map K V) : Decidable (Map.WF m) :=
  inferInstanceAs (Decidable (List.Pairwise (fun (a b : K × V) => a.1 < b.1) m))

/-- The member `insert(value)` of `std::map`: the entry goes to its place in key order, unless
an entry with an equivalent key (neither key less than the other) is stored, which is kept. -/
def Map.insert {K : Type u} {V : Type v} [LinearOrder K] (kv : K × V) : Map K V → Map K V
  | [] => [kv]
  | e :: es =>
    if kv.1 < e.1 then kv :: e :: es
    else if e.1 < kv.1 then e :: Map.insert kv es
    else e :: es

/-- The range form `res.insert(first, last)` of `std::map`: each entry of the range is inserted,
in order. -/
def Map.insertRange {K : Type u} {V : Type v} [LinearOrder K] (res : Map K V)
    (range : List (K × V)) : Map K V :=
  range.foldl (fun acc kv => Map.insert kv acc) res

/-- The member `find` of `std::map`, as an optional value: the value stored under a key
equivalent to `k`. -/
def Map.find {K : Type u} {V : Type v} [LinearOrder K] (m : Map K V) (k : K) : Option V :=
  match m with
  | [] => none
  | e :: es => if e.1 < k ∨ k < e.1 then Map.find es k else some e.2

/-! ## Functor instances (`src/cppmonad.h`, lines 70-159)

Four of the six instances are embedded.  The other two have bodies that are ill-formed once the
template is instantiated, so that no call of them returns a value, and they have no embedding:

* `Functor<Map<K, A>>::fmap` calls `bs.insert(ka.first, f(ka.second))`, and `std::map` has no
  member `insert` that takes a key and a value;
* `Functor<Either<A, B>>::fmap` initialises the pointers `A const* a` and `B const* b` from
  `boost::get<A>(ab)` and `boost::get<B>(ab)`, the form of `boost::get` that takes the variant
  by reference and returns a reference, and its `a ? *a : f(*b)` has operands of the types `A`
  and `C`.  The sibling `Monad<Either<A, B>>::bind` uses the pointer form `boost::get<A>(&mb)`.
-/

/-- The instance `Functor<Vec<A>>::fmap`: `std::transform` of `as` into an empty vector. -/
def FunctorVec.fmap {A : Type u} {B : Type v} (f : Function A B) (as : Vec A) : Vec B :=
  transform as [] f

/-- The instance `Functor<List<A>>::fmap`: `std::transform` of `as` into an empty list. -/
def FunctorList.fmap {A : Type u} {B : Type v} (f : Function A B) (as : LinkedList A) :
    LinkedList B :=
  transform as [] f

/-- The instance `Functor<Maybe<A>>::fmap`: `ma ? f(*ma) : F<B>()`. -/
def FunctorMaybe.fmap {A : Type u} {B : Type v} (f : Function A B) (ma : Maybe A) : Maybe B :=
  match ma with
  | some a => some (f a)
  | none => none

/-- The instance `Functor<Function<A const&, B>>::fmap`: `compose(f, ab)`. -/
def FunctorFunction.fmap {A : Type u} {B : Type v} {C : Type w} (f : Function B C)
    (ab : Function A B) : Function A C :=
  compose f ab

/-! ## Monoid instances (`src/cppmonad.h`, lines 187-248) -/

/-- The instance `Monoid<Vec<A>>::empty`. -/
def MonoidVec.empty {A : Type u} : Vec A := []

/-- The instance `Monoid<Vec<A>>::append`: `x` and then `y` are inserted at the end of an empty
vector. -/
def MonoidVec.append {A : Type u} (x y : Vec A) : Vec A :=
  insertAtEnd (insertAtEnd [] x) y

/-- The instance `Monoid<List<A>>::empty`. -/
def MonoidList.empty {A : Type u} : LinkedList A := []

/-- The instance `Monoid<List<A>>::append`: `x` and then `y` are inserted at the end of an empty
list. -/
def MonoidList.append {A : Type u} (x y : LinkedList A) : LinkedList A :=
  insertAtEnd (insertAtEnd [] x) y

/-- The instance `Monoid<Map<A, B>>::empty`. -/
def MonoidMap.empty {K : Type u} {V : Type v} : Map K V := []

/-- The instance `Monoid<Map<A, B>>::append`: the entries of `x` and then those of `y` are
inserted into an empty map. -/
def MonoidMap.append {K : Type u} {V : Type v} [LinearOrder K] (x y : Map K V) : Map K V :=
  Map.insertRange (Map.insertRange [] x) y

/-- The instance `Monoid<String>::empty`. -/
def MonoidString.empty : String := ""

/-- The instance `Monoid<String>::append`: `a + b`. -/
def MonoidString.append (a b : String) : String := a ++ b

/-! ## Monad instances (`src/cppmonad.h`, lines 277-347) -/

/-- The instance `Monad<Vec<A>>::mreturn`: the one-element vector. -/
def MonadVec.mreturn {A : Type u} (a : A) : Vec A := [a]

/-- The instance `Monad<Vec<A>>::bind`: for each `a` of `as`, each `b` of `f(a)` is pushed to
the back of the result. -/
def MonadVec.bind {A : Type u} {B : Type v} (as : Vec A) (f : Function A (Vec B)) : Vec B :=
  as.foldl (fun bs a => (f a).foldl pushBack bs) []

/-- The instance `Monad<Maybe<A>>::mreturn`. -/
def MonadMaybe.mreturn {A : Type u} (a : A) : Maybe A := some a

/-- The instance `Monad<Maybe<A>>::bind`: `ma ? f(*ma) : Maybe<B>()`. -/
def MonadMaybe.bind {A : Type u} {B : Type v} (ma : Maybe A) (f : Function A (Maybe B)) :
    Maybe B :=
  match ma with
  | some a => f a
  | none => none

/-- The instance `Monad<Either<A, B>>::mreturn`: the right arm. -/
def MonadEither.mreturn {A : Type u} {B : Type v} (b : B) : Either A B := Sum.inr b

/-- The instance `Monad<Either<A, B>>::bind`: `a ? *a : f(*b)`, where `a` is set when the left
arm is held and `b` when the right arm is. -/
def MonadEither.bind {A : Type u} {B : Type v} {C : Type w} (mb : Either A B)
    (f : Function B (Either A C)) : Either A C :=
  match mb with
  | Sum.inl a => Sum.inl a
  | Sum.inr b => f b

/-- The instance `Monad<Function<A const&, B>>::mreturn`: the constant function. -/
def MonadFunction.mreturn {A : Type u} {B : Type v} (b : B) : Function A B := fun _ => b

/-- The instance `Monad<Function<A const&, B>>::bind`: the function `a ↦ f(mb(a))(a)`. -/
def MonadFunction.bind {A : Type u} {B : Type v} {C : Type w} (mb : Function A B)
    (f : Function B (Function A C)) : Function A C :=
  fun a => f (mb a) a

/-! ## The derived operations `concat` and `operator >>` (`src/cppmonad.h`, lines 177-185, 268-274) -/

/-- The algorithm `std::accumulate(first, last, init, op)`: a fold from the left. -/
def accumulate {A : Type u} {B : Type v} (range : List A) (init : B) (op : B → A → B) : B :=
  range.foldl op init

/-- The function `concat<Vec<B>>(xs)`: `std::accumulate` over `xs` from `empty<Vec<B>>()` with
`append<Vec<B>>`. -/
def MonoidVec.concat {A : Type u} (xs : Vec (Vec A)) : Vec A :=
  accumulate xs MonoidVec.empty MonoidVec.append

/-- The operator `>>` at `Monad<Vec<A>>`: `ma >>= f` with `f` the function that ignores its
argument and returns `mb`. -/
def MonadVec.seq {A : Type u} {B : Type v} (ma : Vec A) (mb : Vec B) : Vec B :=
  MonadVec.bind ma (fun _ => mb)

/-- The operator `>>` at `Monad<Maybe<A>>`: `ma >>= f` with `f` the function that ignores its
argument and returns `mb`. -/
def MonadMaybe.seq {A : Type u} {B : Type v} (ma : Maybe A) (mb : Maybe B) : Maybe B :=
  MonadMaybe.bind ma (fun _ => mb)

/-- The operator `>>` at `Monad<Either<A, B>>`: `ma >>= f` with `f` the function that ignores
its argument and returns `mb`. -/
def MonadEither.seq {A : Type u} {B : Type v} {C : Type w} (ma : Either A B)
    (mb : Either A C) : Either A C :=
  MonadEither.bind ma (fun _ => mb)

/-- The operator `>>` at `Monad<Function<A const&, B>>`: `ma >>= f` with `f` the function that
ignores its argument and returns `mb`. -/
def MonadFunction.seq {A : Type u} {B : Type v} {C : Type w} (ma : Function A B)
    (mb : Function A C) : Function A C :=
  MonadFunction.bind ma (fun _ => mb)

/-! ## Show instances (`src/cppmonad.h`, lines 350-432)

An instance for a container calls `Show<A>::show` on the elements; the renderer of the element
type is an argument of the embedded instance.

The instance `Show<Map<A, B>>::show` has no embedding: its parameter is declared as
`List<A> const& xs` while its body reads `x.first` and `x.second` of the elements, so it cannot be
called on a `Map<A, B>`. -/

/-- The member `erase(pos, count)` of `std::string`: the characters from `pos` on, `count` of
them at most, are removed.  Every call in the source has `pos = 0`, which is in range for every
string. -/
def erase (s : String) (pos count : Nat) : String :=
  String.mk (s.data.take pos ++ s.data.drop (pos + count))

/-- The primary template `Show<A>::show` at `A = int`: `boost::lexical_cast<String>(x)`, the
decimal rendering of `x`. -/
def ShowInt.show (x : Int) : String := toString x

/-- The instance `Show<String>::show`: the string between two double quotes. -/
def ShowString.show (s : String) : String := "\"" ++ s ++ "\""

/-- The instance `Show<Vec<A>>::show`: every element adds `", "` and its rendering to `res`,
and the result is `res` without its first two characters, between square brackets. -/
def ShowVec.show {A : Type u} (showA : A → String) (xs : Vec A) : String :=
  "[" ++ erase (xs.foldl (fun res x => res ++ (", " ++ showA x)) "") 0 2 ++ "]"

/-- The instance `Show<List<A>>::show`: every element adds `", "` and its rendering to `res`,
and the result is `res` without its first two characters, between square brackets. -/
def ShowList.show {A : Type u} (showA : A → String) (xs : LinkedList A) : String :=
  "[" ++ erase (xs.foldl (fun res x => res ++ (", " ++ showA x)) "") 0 2 ++ "]"

/-- The instance `Show<Maybe<A>>::show`: `x ? "Just " + show(*x) : "Nothing"`. -/
def ShowMaybe.show {A : Type u} (showA : A → String) (x : Maybe A) : String :=
  match x with
  | some a => "Just " ++ showA a
  | none => "Nothing"

/-- The instance `Show<Either<A, B>>::show`: the visitor `EitherShow` gives `"Left "` and the
rendering of the payload on the left arm, `"Right "` and the rendering of the payload on the
right arm. -/
def ShowEither.show {A : Type u} {B : Type v} (showA : A → String) (showB : B → String)
    (x : Either A B) : String :=
  match x with
  | Sum.inl a => "Left " ++ showA a
  | Sum.inr b => "Right " ++ showB b

/-- Spec-side rendering of a sequence of texts: the texts in order, with `sep` between every two
neighbours and neither before the first nor after the last. -/
def separated (sep : String) : List String → String
  | [] => ""
  | [s] => s
  | s :: t :: ts => s ++ sep ++ separated sep (t :: ts)

/-! ## Auxiliary facts on the sequence primitives -/

theorem foldl_pushBack {A : Type u} (xs acc : List A) :
    xs.foldl pushBack acc = acc ++ xs := by
  induction xs generalizing acc with
  | nil => simp
  | cons x xs ih => simp [ih, pushBack]

theorem insertAtEnd_eq {A : Type u} (res range : List A) :
    insertAtEnd res range = res ++ range :=
  foldl_pushBack range res

theorem transform_eq {A : Type u} {B : Type v} (range : List A) (out : List B) (f : A → B) :
    transform range out f = out ++ range.map f := by
  unfold transform
  induction range generalizing out with
  | nil => simp
  | cons x xs ih =>
    rw [List.foldl_cons, ih]
    simp [pushBack]

theorem vec_fmap_eq_map {A : Type u} {B : Type v} (f : A → B) (as : Vec A) :
    FunctorVec.fmap f as = as.map f := by
  simp [FunctorVec.fmap, transform_eq]

theorem list_fmap_eq_map {A : Type u} {B : Type v} (f : A → B) (as : LinkedList A) :
    FunctorList.fmap f as = as.map f := by
  simp [FunctorList.fmap, transform_eq]

theorem vec_append_eq {A : Type u} (x y : Vec A) : MonoidVec.append x y = x ++ y := by
  simp [MonoidVec.append, insertAtEnd_eq]

theorem list_append_eq {A : Type u} (x y : LinkedList A) :
    MonoidList.append x y = x ++ y := by
  simp [MonoidList.append, insertAtEnd_eq]

theorem MonadVec.bind_foldl {A : Type u} {B : Type v} (as : Vec A) (f : A → Vec B)
    (acc : Vec B) :
    as.foldl (fun bs a => (f a).foldl pushBack bs) acc = acc ++ (as.map f).flatten := by
  induction as generalizing acc with
  | nil => simp
  | cons a as ih =>
    rw [List.foldl_cons, ih, foldl_pushBack]
    simp

theorem MonadVec.bind_eq {A : Type u} {B : Type v} (as : Vec A) (f : A → Vec B) :
    MonadVec.bind as f = (as.map f).flatten := by
  simp [MonadVec.bind, MonadVec.bind_foldl]

/-! ## Auxiliary facts on `std::map` -/

section MapFacts

variable {K : Type u} {V : Type v} [LinearOrder K]

theorem Map.find_nil (k : K) : Map.find ([] : Map K V) k = none := rfl

theorem Map.find_cons (e : K × V) (es : Map K V) (k : K) :
    Map.find (e :: es) k = if e.1 = k then some e.2 else Map.find es k := by
  by_cases h : e.1 = k
  · simp [Map.find, h]
  · have h2 : e.1 < k ∨ k < e.1 := lt_or_gt_of_ne h
    simp [Map.find, h, h2]

theorem Map.find_eq_none_of_lt (m : Map K V) (k : K) (h : ∀ e ∈ m, k < e.1) :
    Map.find m k = none := by
  induction m with
  | nil => rfl
  | cons a as ih =>
    have h1 : k < a.1 := h a (List.mem_cons_self _ _)
    rw [Map.find_cons, if_neg (ne_of_gt h1)]
    exact ih (fun e he => h e (List.mem_cons_of_mem _ he))

theorem Map.mem_insert (kv : K × V) (m : Map K V) (e : K × V)
    (h : e ∈ Map.insert kv m) : e = kv ∨ e ∈ m := by
  induction m with
  | nil => simpa [Map.insert] using h
  | cons a as ih =>
    simp only [Map.insert] at h
    split_ifs at h with h1 h2
    · rcases List.mem_cons.mp h with h | h
      · exact Or.inl h
      · exact Or.inr h
    · rcases List.mem_cons.mp h with h | h
      · exact Or.inr (h ▸ List.mem_cons_self _ _)
      · rcases ih h with h | h
        · exact Or.inl h
        · exact Or.inr (List.mem_cons_of_mem _ h)
    · exact Or.inr h

theorem Map.WF_nil : Map.WF ([] : Map K V) := List.Pairwise.nil

theorem Map.WF_insert (kv : K × V) (m : Map K V) (h : Map.WF m) :
    Map.WF (Map.insert kv m) := by
  induction m with
  | nil => simp [Map.insert, Map.WF]
  | cons a as ih =>
    have ha := List.pairwise_cons.mp h
    simp only [Map.insert]
    split_ifs with h1 h2
    · refine List.pairwise_cons.mpr ⟨?_, h⟩
      intro b hb
      rcases List.mem_cons.mp hb with hb | hb
      · exact hb ▸ h1
      · exact lt_trans h1 (ha.1 b hb)
    · refine List.pairwise_cons.mpr ⟨?_, ih ha.2⟩
      intro b hb
      rcases Map.mem_insert kv as b hb with hb | hb
      · exact hb ▸ h2
      · exact ha.1 b hb
    · exact h

theorem Map.WF_insertRange (res : Map K V) (range : List (K × V)) (h : Map.WF res) :
    Map.WF (Map.insertRange res range) := by
  induction range generalizing res with
  | nil => exact h
  | cons e es ih => exact ih (Map.insert e res) (Map.WF_insert e res h)

theorem Map.find_insert (kv : K × V) (m : Map K V) (k : K) (h : Map.WF m) :
    Map.find (Map.insert kv m) k = (Map.find m k).or (Map.find [kv] k) := by
  induction m with
  | nil => simp [Map.insert, Map.find_nil]
  | cons a as ih =>
    have ha := List.pairwise_cons.mp h
    simp only [Map.insert]
    split_ifs with h1 h2
    · by_cases hk : kv.1 = k
      · have hnone : Map.find (a :: as) k = none := by
          apply Map.find_eq_none_of_lt
          intro e he
          rcases List.mem_cons.mp he with he | he
          · exact he ▸ hk ▸ h1
          · exact hk ▸ lt_trans h1 (ha.1 e he)
        rw [hnone, Map.find_cons kv, if_pos hk, Map.find_cons kv, if_pos hk]
        simp
      · rw [Map.find_cons kv, if_neg hk, Map.find_cons kv [], if_neg hk, Map.find_nil]
        simp
    · rw [Map.find_cons a, Map.find_cons a, ih ha.2]
      by_cases hk : a.1 = k
      · simp [hk]
      · simp [hk]
    · have hak : a.1 = kv.1 := le_antisymm (not_lt.mp h1) (not_lt.mp h2)
      by_cases hk : kv.1 = k
      · rw [Map.find_cons a, if_pos (hak.trans hk)]
        simp
      · rw [Map.find_cons kv [], if_neg hk, Map.find_nil]
        simp

theorem Map.find_insertRange (res : Map K V) (range : List (K × V)) (k : K)
    (h : Map.WF res) :
    Map.find (Map.insertRange res range) k = (Map.find res k).or (Map.find range k) := by
  induction range generalizing res with
  | nil => simp [Map.insertRange, Map.find_nil]
  | cons e es ih =>
    have step : Map.insertRange res (e :: es) = Map.insertRange (Map.insert e res) es := rfl
    rw [step, ih (Map.insert e res) (Map.WF_insert e res h), Map.find_insert e res k h,
      Option.or_assoc, Map.find_cons e es, Map.find_cons e [], Map.find_nil]
    by_cases hk : e.1 = k
    · simp [hk]
    · simp [hk]

theorem Map.ext_find (a b : Map K V) (ha : Map.WF a) (hb : Map.WF b)
    (h : ∀ k, Map.find a k = Map.find b k) : a = b := by
  induction a generalizing b with
  | nil =>
    cases b with
    | nil => rfl
    | cons e es =>
      have := h e.1
      rw [Map.find_nil, Map.find_cons, if_pos rfl] at this
      cases this
  | cons x xs ih =>
    cases b with
    | nil =>
      have := h x.1
      rw [Map.find_nil, Map.find_cons, if_pos rfl] at this
      cases this
    | cons e es =>
      have hx := List.pairwise_cons.mp ha
      have he := List.pairwise_cons.mp hb
      have hxn : Map.find xs x.1 = none := Map.find_eq_none_of_lt xs x.1 hx.1
      have hen : Map.find es e.1 = none := Map.find_eq_none_of_lt es e.1 he.1
      have key : x.1 = e.1 := by
        by_contra hne
        have h1 := h x.1
        rw [Map.find_cons x, if_pos rfl, Map.find_cons e, if_neg (Ne.symm hne)] at h1
        have h2 := h e.1
        rw [Map.find_cons x, if_neg hne, Map.find_cons e, if_pos rfl] at h2
        rcases lt_or_gt_of_ne hne with hlt | hgt
        · rw [Map.find_eq_none_of_lt es x.1 (fun y hy => lt_trans hlt (he.1 y hy))] at h1
          cases h1
        · rw [Map.find_eq_none_of_lt xs e.1 (fun y hy => lt_trans hgt (hx.1 y hy))] at h2
          cases h2
      have val : x.2 = e.2 := by
        have h1 := h x.1
        rw [Map.find_cons x, if_pos rfl, Map.find_cons e, if_pos key.symm] at h1
        exact Option.some.inj h1
      have tails : xs = es := by
        apply ih es hx.2 he.2
        intro k
        by_cases hk : x.1 = k
        · rw [← hk, hxn, key, hen]
        · have h1 := h k
          rw [Map.find_cons x, if_neg hk, Map.find_cons e, if_neg (key ▸ hk)] at h1
          exact h1
      rw [tails, Prod.ext key val]

theorem MonoidMap.WF_append (x y : Map K V) : Map.WF (MonoidMap.append x y) :=
  Map.WF_insertRange _ y (Map.WF_insertRange [] x Map.WF_nil)

theorem MonoidMap.find_append (x y : Map K V) (k : K) :
    Map.find (MonoidMap.append x y) k = (Map.find x k).or (Map.find y k) := by
  unfold MonoidMap.append
  rw [Map.find_insertRange _ y k (Map.WF_insertRange [] x Map.WF_nil),
    Map.find_insertRange [] x k Map.WF_nil, Map.find_nil, Option.none_or]

theorem Map.insertRange_nil_self (x : Map K V) (h : Map.WF x) : Map.insertRange [] x = x := by
  apply Map.ext_find _ _ (Map.WF_insertRange [] x Map.WF_nil) h
  intro k
  rw [Map.find_insertRange [] x k Map.WF_nil, Map.find_nil, Option.none_or]

end MapFacts

/-! ## Auxiliary facts on the sequence monad -/

theorem MonadVec.bind_append {A : Type u} {B : Type v} (xs ys : Vec A) (f : A → Vec B) :
    MonadVec.bind (xs ++ ys) f = MonadVec.bind xs f ++ MonadVec.bind ys f := by
  simp [MonadVec.bind_eq]

theorem MonadVec.bind_cons {A : Type u} {B : Type v} (a : A) (as : Vec A) (f : A → Vec B) :
    MonadVec.bind (a :: as) f = f a ++ MonadVec.bind as f := by
  simp [MonadVec.bind_eq]

/-! ## The monad laws -/

/-- Claim C1. Monad associativity: on each of the shapes `Vec`, `Maybe`, `Either` and `Function`,
binding `m` with `f` and the result with `g` equals binding `m` with `x ↦ bind (f x) g`; for
`Function` the two sides agree on every argument. -/
theorem monad_associativity {A : Type u} {B : Type v} {C : Type w} {E : Type x} {R : Type y} :
    (∀ (m : Vec A) (f : Function A (Vec B)) (g : Function B (Vec C)),
      MonadVec.bind (MonadVec.bind m f) g = MonadVec.bind m (fun x => MonadVec.bind (f x) g)) ∧
    (∀ (m : Maybe A) (f : Function A (Maybe B)) (g : Function B (Maybe C)),
      MonadMaybe.bind (MonadMaybe.bind m f) g
        = MonadMaybe.bind m (fun x => MonadMaybe.bind (f x) g)) ∧
    (∀ (m : Either E A) (f : Function A (Either E B)) (g : Function B (Either E C)),
      MonadEither.bind (MonadEither.bind m f) g
        = MonadEither.bind m (fun x => MonadEither.bind (f x) g)) ∧
    (∀ (m : Function R A) (f : Function A (Function R B)) (g : Function B (Function R C))
      (r : R),
      MonadFunction.bind (MonadFunction.bind m f) g r
        = MonadFunction.bind m (fun x => MonadFunction.bind (f x) g) r) := by
  refine ⟨?_, ?_, ?_, ?_⟩
  · intro m f g
    induction m with
    | nil => rfl
    | cons a as ih =>
      rw [MonadVec.bind_cons, MonadVec.bind_append, ih, MonadVec.bind_cons]
  · intro m f g
    cases m <;> rfl
  · intro m f g
    cases m <;> rfl
  · intro m f g r
    rfl

/-- Claim C2. Monad left identity: on each of the shapes `Vec`, `Maybe`, `Either` and `Function`,
binding `mreturn a` with `f` equals `f a`. -/
theorem monad_left_identity {A : Type u} {B : Type v} {E : Type x} {R : Type y} :
    (∀ (a : A) (f : Function A (Vec B)), MonadVec.bind (MonadVec.mreturn a) f = f a) ∧
    (∀ (a : A) (f : Function A (Maybe B)), MonadMaybe.bind (MonadMaybe.mreturn a) f = f a) ∧
    (∀ (a : A) (f : Function A (Either E B)),
      MonadEither.bind (MonadEither.mreturn a) f = f a) ∧
    (∀ (a : A) (f : Function A (Function R B)),
      MonadFunction.bind (MonadFunction.mreturn a) f = f a) := by
  refine ⟨?_, ?_, ?_, ?_⟩
  · intro a f
    simp [MonadVec.mreturn, MonadVec.bind_eq]
  · intro a f
    rfl
  · intro a f
    rfl
  · intro a f
    rfl

/-- Claim C3. Monad right identity: on each of the shapes `Vec`, `Maybe`, `Either` and
`Function`, binding `m` with `mreturn` gives `m` back: the same elements in the same order for
`Vec`, and a left arm with its payload for `Either`. -/
theorem monad_right_identity {A : Type u} {E : Type v} {R : Type w} :
    (∀ m : Vec A, MonadVec.bind m MonadVec.mreturn = m) ∧
    (∀ m : Maybe A, MonadMaybe.bind m MonadMaybe.mreturn = m) ∧
    (∀ m : Either E A, MonadEither.bind m MonadEither.mreturn = m) ∧
    (∀ e : E, MonadEither.bind (Sum.inl e : Either E A) MonadEither.mreturn = Sum.inl e) ∧
    (∀ m : Function R A, MonadFunction.bind m MonadFunction.mreturn = m) := by
  refine ⟨?_, ?_, ?_, ?_, ?_⟩
  · intro m
    induction m with
    | nil => rfl
    | cons a as ih => rw [MonadVec.bind_cons, ih]; rfl
  · intro m
    cases m <;> rfl
  · intro m
    cases m <;> rfl
  · intro e
    rfl
  · intro m
    rfl

/-! ## The functor laws -/

/-- Functor identity on the four embedded instances: on `Vec`, `List`, `Maybe` and `Function`,
`fmap id v` equals `v`. -/
theorem functor_identity {A : Type u} {R : Type v} :
    (∀ v : Vec A, FunctorVec.fmap id v = v) ∧
    (∀ v : LinkedList A, FunctorList.fmap id v = v) ∧
    (∀ v : Maybe A, FunctorMaybe.fmap id v = v) ∧
    (∀ v : Function R A, FunctorFunction.fmap id v = v) := by
  refine ⟨?_, ?_, ?_, ?_⟩
  · intro v
    rw [vec_fmap_eq_map]
    exact List.map_id v
  · intro v
    rw [list_fmap_eq_map]
    exact List.map_id v
  · intro v
    cases v <;> rfl
  · intro v
    rfl

/-- Functor composition on the four embedded instances: on `Vec`, `List`, `Maybe` and
`Function`, `fmap (compose f g) v` equals `fmap f (fmap g v)`, where `compose f g x` is
`f (g x)`. -/
theorem functor_composition {A : Type u} {B : Type v} {C : Type w} {R : Type x} :
    (∀ (a : A) (f : Function B C) (g : Function A B), compose f g a = f (g a)) ∧
    (∀ (f : Function B C) (g : Function A B) (v : Vec A),
      FunctorVec.fmap (compose f g) v = FunctorVec.fmap f (FunctorVec.fmap g v)) ∧
    (∀ (f : Function B C) (g : Function A B) (v : LinkedList A),
      FunctorList.fmap (compose f g) v = FunctorList.fmap f (FunctorList.fmap g v)) ∧
    (∀ (f : Function B C) (g : Function A B) (v : Maybe A),
      FunctorMaybe.fmap (compose f g) v = FunctorMaybe.fmap f (FunctorMaybe.fmap g v)) ∧
    (∀ (f : Function B C) (g : Function A B) (v : Function R A),
      FunctorFunction.fmap (compose f g) v
        = FunctorFunction.fmap f (FunctorFunction.fmap g v)) := by
  refine ⟨?_, ?_, ?_, ?_, ?_⟩
  · intro a f g
    rfl
  · intro f g v
    simp [vec_fmap_eq_map, compose]
  · intro f g v
    simp [list_fmap_eq_map, compose]
  · intro f g v
    cases v <;> rfl
  · intro f g v
    rfl

/-! ## The monoid laws -/

/-- Claim C6. Monoid associativity: on each of the shapes `Vec`, `List`, `Map` and `String`,
`append (append x y) z` equals `append x (append y z)`. -/
theorem monoid_associativity {K : Type u} {A : Type v} [LinearOrder K] :
    (∀ x y z : Vec A,
      MonoidVec.append (MonoidVec.append x y) z = MonoidVec.append x (MonoidVec.append y z)) ∧
    (∀ x y z : LinkedList A,
      MonoidList.append (MonoidList.append x y) z
        = MonoidList.append x (MonoidList.append y z)) ∧
    (∀ x y z : Map K A,
      MonoidMap.append (MonoidMap.append x y) z = MonoidMap.append x (MonoidMap.append y z)) ∧
    (∀ x y z : String,
      MonoidString.append (MonoidString.append x y) z
        = MonoidString.append x (MonoidString.append y z)) := by
  refine ⟨?_, ?_, ?_, ?_⟩
  · intro x y z
    simp [vec_append_eq]
  · intro x y z
    simp [list_append_eq]
  · intro x y z
    apply Map.ext_find _ _ (MonoidMap.WF_append _ _) (MonoidMap.WF_append _ _)
    intro k
    simp only [MonoidMap.find_append, Option.or_assoc]
  · intro x y z
    exact String.append_assoc x y z

/-- Claim C7. Monoid identity: on each of the shapes `Vec`, `List`, `Map` and `String`,
`append x empty` and `append empty x` both equal `x`; the `Map` instance is a `std::map`, whose
keys ascend strictly. -/
theorem monoid_identity {K : Type u} {A : Type v} [LinearOrder K] (xm : Map K A)
    (hxm : Map.WF xm) :
    (∀ x : Vec A,
      MonoidVec.append x MonoidVec.empty = x ∧ MonoidVec.append MonoidVec.empty x = x) ∧
    (∀ x : LinkedList A,
      MonoidList.append x MonoidList.empty = x ∧ MonoidList.append MonoidList.empty x = x) ∧
    (MonoidMap.append xm MonoidMap.empty = xm ∧ MonoidMap.append MonoidMap.empty xm = xm) ∧
    (∀ x : String,
      MonoidString.append x MonoidString.empty = x ∧
      MonoidString.append MonoidString.empty x = x) := by
  refine ⟨?_, ?_, ⟨?_, ?_⟩, ?_⟩
  · intro x
    simp [vec_append_eq, MonoidVec.empty]
  · intro x
    simp [list_append_eq, MonoidList.empty]
  · exact Map.insertRange_nil_self xm hxm
  · exact Map.insertRange_nil_self xm hxm
  · intro x
    exact ⟨String.append_empty x, String.empty_append x⟩

/-- A `std::map` with three entries has strictly ascending keys and has the empty map as a
two-sided identity. -/
theorem monoid_identity_witness :
    Map.WF ([(2, 5), (4, 0), (9, 1)] : Map Nat Nat) ∧
    MonoidMap.append ([(2, 5), (4, 0), (9, 1)] : Map Nat Nat) MonoidMap.empty
      = [(2, 5), (4, 0), (9, 1)] ∧
    MonoidMap.append MonoidMap.empty ([(2, 5), (4, 0), (9, 1)] : Map Nat Nat)
      = [(2, 5), (4, 0), (9, 1)] :=
  ⟨by decide, (monoid_identity ([(2, 5), (4, 0), (9, 1)] : Map Nat Nat) (by decide)).2.2.1⟩

/-! ## Collision policy of the mapping combine -/

theorem MonoidMap.append_same_key {K : Type u} {V : Type v} [LinearOrder K] (k : K)
    (a b : V) : MonoidMap.append [(k, a)] [(k, b)] = [(k, a)] := by
  simp [MonoidMap.append, Map.insertRange, Map.insert]

/-- Right-biased overwrite does not hold of the mapping combine: the key `"a"` is present in the
right operand `{"a": 2}` with the value `2`, yet the combination of `{"a": 1}` and `{"a": 2}`
does not map `"a"` to `2` and is not `{"a": 2}`; it is `{"a": 1}`. -/
theorem map_append_right_bias_fails :
    Map.find ([("a", 2)] : Map String Int) "a" = some 2 ∧
    Map.find (MonoidMap.append ([("a", 1)] : Map String Int) [("a", 2)]) "a" ≠ some 2 ∧
    MonoidMap.append ([("a", 1)] : Map String Int) [("a", 2)] ≠ [("a", 2)] ∧
    MonoidMap.append ([("a", 1)] : Map String Int) [("a", 2)] = [("a", 1)] := by
  rw [MonoidMap.append_same_key "a" (1 : Int) 2]
  refine ⟨?_, ?_, ?_, rfl⟩
  · simp [Map.find_cons]
  · simp [Map.find_cons]
  · simp

/-- Claim C8, amended. The mapping combine is a union in which the left operand wins a
collision: `append x y` is a `std::map` that maps every key to the value `x` has for it when `x`
has one (also when `y` has one too), and otherwise to the value `y` has for it, if any; in
particular the combination of `{"a": 1}` and `{"a": 2}` is `{"a": 1}`. -/
theorem map_append_left_biased_union {K : Type u} {V : Type v} [LinearOrder K] :
    (∀ (x y : Map K V) (k : K),
      Map.find (MonoidMap.append x y) k
        = match Map.find x k with
          | some a => some a
          | none => Map.find y k) ∧
    (∀ x y : Map K V, Map.WF (MonoidMap.append x y)) ∧
    MonoidMap.append ([("a", 1)] : Map String Int) [("a", 2)] = [("a", 1)] := by
  refine ⟨?_, MonoidMap.WF_append, MonoidMap.append_same_key "a" 1 2⟩
  intro x y k
  rw [MonoidMap.find_append]
  cases Map.find x k <;> simp

/-! ## Short-circuiting binds -/

/-- Claim C9. The optional bind short-circuits: binding the absent value with any `f` is absent,
binding a present `a` with `f` is `f a`, and binding the present `5` with
`x ↦ if x > 0 then present (x * 2) else absent` is the present `10`. -/
theorem maybe_bind_short_circuits {A : Type u} {B : Type v} :
    (∀ f : Function A (Maybe B), MonadMaybe.bind (none : Maybe A) f = none) ∧
    (∀ (a : A) (f : Function A (Maybe B)), MonadMaybe.bind (some a : Maybe A) f = f a) ∧
    MonadMaybe.bind (some 5 : Maybe Int) (fun x => if x > 0 then some (x * 2) else none)
      = some 10 :=
  ⟨fun _ => rfl, fun _ _ => rfl, by decide⟩

/-- Claim C10. The disjoint-union bind short-circuits on the left arm: binding a left arm `e`
gives the left arm `e` back whatever `f` is, so `f` has no part in the result, and binding a
right arm `b` with `f` is `f b`. -/
theorem either_bind_short_circuits {A : Type u} {B : Type v} {C : Type w} :
    (∀ (e : A) (f : Function B (Either A C)),
      MonadEither.bind (Sum.inl e : Either A B) f = Sum.inl e) ∧
    (∀ (e : A) (f g : Function B (Either A C)),
      MonadEither.bind (Sum.inl e : Either A B) f = MonadEither.bind (Sum.inl e) g) ∧
    (∀ (b : B) (f : Function B (Either A C)),
      MonadEither.bind (Sum.inr b : Either A B) f = f b) :=
  ⟨fun _ _ => rfl, fun _ _ _ => rfl, fun _ _ => rfl⟩

/-! ## The derived sequencing operator -/

theorem MonadVec.seq_eq {A : Type u} {B : Type v} (m : Vec A) (n : Vec B) :
    MonadVec.seq m n = (List.replicate m.length n).flatten := by
  unfold MonadVec.seq
  induction m with
  | nil => rfl
  | cons a as ih => rw [MonadVec.bind_cons, ih, List.length_cons, List.replicate_succ,
      List.flatten_cons]

/-- The sequence shape does not return the second operand of `>>` unconditionally: with a first
operand of two elements the second operand `[3]` comes out twice, and with an empty first operand
the result is empty. -/
theorem vec_seq_not_second_operand :
    MonadVec.seq ([1, 2] : Vec Int) ([3] : Vec Int) = [3, 3] ∧
    MonadVec.seq ([1, 2] : Vec Int) ([3] : Vec Int) ≠ [3] ∧
    MonadVec.seq ([] : Vec Int) ([3] : Vec Int) = [] ∧
    MonadVec.seq ([] : Vec Int) ([3] : Vec Int) ≠ [3] := by
  decide

/-- Claim C11, amended. On every chainable shape `m >> n` equals `bind m (_ ↦ n)`.  For the
function value shape that is `n` unconditionally.  For the sequence shape it is `n` repeated once
per element of `m`, in a row: `n` itself when `m` has one element, the empty sequence when `m` is
empty, and of length `|m| * |n|` always.  For the optional shape it is `n` when `m` is present and
absent otherwise, and for the disjoint union it is `n` when `m` is a right arm and the left arm
of `m` otherwise. -/
theorem seq_is_bind_of_constant {A : Type u} {B : Type v} {E : Type w} {R : Type x} :
    (∀ (m : Vec A) (n : Vec B), MonadVec.seq m n = MonadVec.bind m (fun _ => n)) ∧
    (∀ (m : Maybe A) (n : Maybe B), MonadMaybe.seq m n = MonadMaybe.bind m (fun _ => n)) ∧
    (∀ (m : Either E A) (n : Either E B),
      MonadEither.seq m n = MonadEither.bind m (fun _ => n)) ∧
    (∀ (m : Function R A) (n : Function R B),
      MonadFunction.seq m n = MonadFunction.bind m (fun _ => n)) ∧
    (∀ (m : Function R A) (n : Function R B), MonadFunction.seq m n = n) ∧
    (∀ (m : Vec A) (n : Vec B), MonadVec.seq m n = (List.replicate m.length n).flatten) ∧
    (∀ (a : A) (n : Vec B), MonadVec.seq [a] n = n) ∧
    (∀ n : Vec B, MonadVec.seq ([] : Vec A) n = []) ∧
    (∀ (m : Vec A) (n : Vec B), (MonadVec.seq m n).length = m.length * n.length) ∧
    (∀ (a : A) (n : Maybe B), MonadMaybe.seq (some a) n = n) ∧
    (∀ n : Maybe B, MonadMaybe.seq (none : Maybe A) n = none) ∧
    (∀ (b : A) (n : Either E B), MonadEither.seq (Sum.inr b : Either E A) n = n) ∧
    (∀ (e : E) (n : Either E B), MonadEither.seq (Sum.inl e : Either E A) n = Sum.inl e) := by
  refine ⟨fun _ _ => rfl, fun _ _ => rfl, fun _ _ => rfl, fun _ _ => rfl, fun _ _ => rfl,
    MonadVec.seq_eq, ?_, fun _ => rfl, ?_, fun _ _ => rfl, fun _ => rfl, fun _ _ => rfl,
    fun _ _ => rfl⟩
  · intro a n
    simp [MonadVec.seq_eq]
  · intro m n
    simp [MonadVec.seq_eq]

/-! ## Structure preservation of `fmap` -/

/-- Structure preservation of `fmap` on the embedded container instances.  On a `Vec` or a
`List` the result has the length of the input and holds `f (xs[i])` at every position `i`, so
that `fmap double [1, 2, 3]` is `[2, 4, 6]`.  On a `Maybe` the result is present exactly when the
input is, holding `f` of the value. -/
theorem fmap_preserves_structure {A : Type u} {B : Type v} :
    (∀ (f : Function A B) (xs : Vec A),
      (FunctorVec.fmap f xs).length = xs.length ∧
      ∀ i : Nat, (FunctorVec.fmap f xs)[i]? = (xs[i]?).map f) ∧
    (∀ (f : Function A B) (xs : LinkedList A),
      (FunctorList.fmap f xs).length = xs.length ∧
      ∀ i : Nat, (FunctorList.fmap f xs)[i]? = (xs[i]?).map f) ∧
    FunctorVec.fmap (fun n : Int => n * 2) [1, 2, 3] = [2, 4, 6] ∧
    FunctorList.fmap (fun n : Int => n * 2) [1, 2, 3] = [2, 4, 6] ∧
    (∀ (f : Function A B) (a : A), FunctorMaybe.fmap f (some a) = some (f a)) ∧
    (∀ f : Function A B, FunctorMaybe.fmap f none = none) := by
  refine ⟨?_, ?_, by decide, by decide, fun _ _ => rfl, fun _ => rfl⟩
  · intro f xs
    rw [vec_fmap_eq_map]
    exact ⟨List.length_map xs f, fun i => List.getElem?_map f xs i⟩
  · intro f xs
    rw [list_fmap_eq_map]
    exact ⟨List.length_map xs f, fun i => List.getElem?_map f xs i⟩

/-! ## Concatenation -/

/-- Claim C13. The sequence combine is an order-preserving concatenation: on `Vec` and on `List`,
`append x y` has length `|x| + |y|`, its first `|x|` elements are those of `x` in order and the
rest are those of `y` in order; in particular `append ["a"] ["b"]` is `["a", "b"]`. -/
theorem append_is_concatenation {A : Type u} :
    (∀ x y : Vec A,
      (MonoidVec.append x y).length = x.length + y.length ∧
      (MonoidVec.append x y).take x.length = x ∧
      (MonoidVec.append x y).drop x.length = y) ∧
    (∀ x y : LinkedList A,
      (MonoidList.append x y).length = x.length + y.length ∧
      (MonoidList.append x y).take x.length = x ∧
      (MonoidList.append x y).drop x.length = y) ∧
    MonoidVec.append (["a"] : Vec String) ["b"] = ["a", "b"] ∧
    MonoidList.append (["a"] : LinkedList String) ["b"] = ["a", "b"] := by
  refine ⟨?_, ?_, by decide, by decide⟩
  · intro x y
    rw [vec_append_eq]
    exact ⟨List.length_append x y, List.take_left x y, List.drop_left x y⟩
  · intro x y
    rw [list_append_eq]
    exact ⟨List.length_append x y, List.take_left x y, List.drop_left x y⟩

theorem MonoidVec.concat_foldl {A : Type u} (xs : Vec (Vec A)) (acc : Vec A) :
    xs.foldl MonoidVec.append acc = acc ++ xs.flatten := by
  induction xs generalizing acc with
  | nil => simp
  | cons a as ih => rw [List.foldl_cons, ih, vec_append_eq, List.flatten_cons,
      List.append_assoc]

/-- Claim C18. The sequence bind is a flat-map: `bind as f` is the in-order concatenation of the
`f a` for `a` in `as`, which is `concat` applied to `fmap f as`, and its length is the sum of the
lengths of the `f a`. -/
theorem vec_bind_is_flat_map {A : Type u} {B : Type v} :
    (∀ (as : Vec A) (f : Function A (Vec B)),
      MonadVec.bind as f = MonoidVec.concat (FunctorVec.fmap f as)) ∧
    (∀ (as : Vec A) (f : Function A (Vec B)), MonadVec.bind as f = (as.map f).flatten) ∧
    (∀ (f : Function A (Vec B)), MonadVec.bind [] f = []) ∧
    (∀ (a : A) (as : Vec A) (f : Function A (Vec B)),
      MonadVec.bind (a :: as) f = f a ++ MonadVec.bind as f) ∧
    (∀ (as : Vec A) (f : Function A (Vec B)),
      (MonadVec.bind as f).length = (as.map (fun a => (f a).length)).sum) := by
  refine ⟨?_, MonadVec.bind_eq, fun _ => rfl, MonadVec.bind_cons, ?_⟩
  · intro as f
    rw [MonadVec.bind_eq, vec_fmap_eq_map]
    unfold MonoidVec.concat accumulate
    rw [MonoidVec.concat_foldl]
    rfl
  · intro as f
    rw [MonadVec.bind_eq, List.length_flatten, List.map_map]
    rfl

/-! ## Agreement of the functor and monad instances -/

/-- Agreement of the functor and the monad instance on `Vec`, `Maybe` and `Function`:
`fmap f m` equals `bind m (x ↦ mreturn (f x))`. -/
theorem fmap_eq_bind_mreturn {A : Type u} {B : Type v} {R : Type w} :
    (∀ (f : Function A B) (m : Vec A),
      FunctorVec.fmap f m = MonadVec.bind m (fun a => MonadVec.mreturn (f a))) ∧
    (∀ (f : Function A B) (m : Maybe A),
      FunctorMaybe.fmap f m = MonadMaybe.bind m (fun a => MonadMaybe.mreturn (f a))) ∧
    (∀ (f : Function A B) (m : Function R A),
      FunctorFunction.fmap f m
        = MonadFunction.bind m (fun a => MonadFunction.mreturn (f a))) := by
  refine ⟨?_, ?_, fun _ _ => rfl⟩
  · intro f m
    rw [vec_fmap_eq_map]
    induction m with
    | nil => rfl
    | cons a as ih => rw [MonadVec.bind_cons, ← ih]; rfl
  · intro f m
    cases m <;> rfl

/-! ## Rendering -/

theorem erase_separator (t : String) : erase (", " ++ t) 0 2 = t := by
  simp [erase]

theorem foldl_append_acc {A : Type u} (g : A → String) (xs : List A) (acc : String) :
    xs.foldl (fun res x => res ++ g x) acc
      = acc ++ xs.foldl (fun res x => res ++ g x) "" := by
  induction xs generalizing acc with
  | nil => simp
  | cons a as ih =>
    rw [List.foldl_cons, List.foldl_cons, ih (acc ++ g a), ih ("" ++ g a), String.empty_append,
      String.append_assoc]

theorem foldl_append_separated {A : Type u} (sep : String) (g : A → String) (a : A)
    (as : List A) :
    (a :: as).foldl (fun res x => res ++ (sep ++ g x)) ""
      = sep ++ separated sep ((a :: as).map g) := by
  induction as generalizing a with
  | nil => simp [separated]
  | cons b bs ih =>
    rw [List.foldl_cons, foldl_append_acc (fun x => sep ++ g x), ih b, String.empty_append]
    simp [separated, String.append_assoc]

theorem rendered_sequence {A : Type u} (g : A → String) (xs : List A) :
    erase (xs.foldl (fun res x => res ++ (", " ++ g x)) "") 0 2
      = separated ", " (xs.map g) := by
  cases xs with
  | nil => rfl
  | cons a as => rw [foldl_append_separated, erase_separator]

/-- Claim C14. Sequence rendering: on `Vec` and on `List`, `show xs` is `[`, then the renderings
of the elements of `xs` in order with `", "` between neighbours and no separator before the first
or after the last, then `]`; the empty sequence renders as `[]`; a text renders as itself between
double quotes; and `show ["x", "y"]` is the text `["x", "y"]`. -/
theorem show_sequence {A : Type u} :
    (∀ (showA : A → String) (xs : Vec A),
      ShowVec.show showA xs = "[" ++ separated ", " (xs.map showA) ++ "]") ∧
    (∀ (showA : A → String) (xs : LinkedList A),
      ShowList.show showA xs = "[" ++ separated ", " (xs.map showA) ++ "]") ∧
    (∀ showA : A → String, ShowVec.show showA [] = "[]" ∧ ShowList.show showA [] = "[]") ∧
    (∀ (showA : A → String) (a b c : A),
      ShowVec.show showA [a, b, c]
        = "[" ++ showA a ++ ", " ++ showA b ++ ", " ++ showA c ++ "]") ∧
    (∀ s : String, ShowString.show s = "\"" ++ s ++ "\"") ∧
    ShowVec.show ShowString.show ["x", "y"] = "[\"x\", \"y\"]" ∧
    ShowList.show ShowString.show ["x", "y"] = "[\"x\", \"y\"]" := by
  refine ⟨?_, ?_, fun _ => ⟨rfl, rfl⟩, ?_, fun _ => rfl, by decide, by decide⟩
  · intro showA xs
    unfold ShowVec.show
    rw [rendered_sequence]
  · intro showA xs
    unfold ShowList.show
    rw [rendered_sequence]
  · intro showA a b c
    unfold ShowVec.show
    rw [rendered_sequence]
    simp [separated, String.append_assoc]

/-- The tags `has value: `, `no value`, `left: ` and `right: ` are not what the code renders: the
present optional `3` renders as `Just 3`, the absent optional as `Nothing`, the left arm `3` as
`Left 3` and the right arm `3` as `Right 3`. -/
theorem show_tags_differ :
    ShowMaybe.show ShowInt.show (some 3) ≠ "has value: " ++ ShowInt.show 3 ∧
    ShowMaybe.show ShowInt.show (some 3) ≠ "has value: 3" ∧
    ShowMaybe.show ShowInt.show none ≠ "no value" ∧
    ShowEither.show ShowInt.show ShowString.show (Sum.inl 3) ≠ "left: " ++ ShowInt.show 3 ∧
    ShowEither.show ShowString.show ShowInt.show (Sum.inr 3) ≠ "right: " ++ ShowInt.show 3 ∧
    ShowMaybe.show ShowInt.show (some 3) = "Just 3" ∧
    ShowMaybe.show ShowInt.show none = "Nothing" ∧
    ShowEither.show ShowInt.show ShowString.show (Sum.inl 3) = "Left 3" ∧
    ShowEither.show ShowString.show ShowInt.show (Sum.inr 3) = "Right 3" := by
  decide

/-- Claim C15, amended. Tagged rendering of optional and disjoint union: the rendering of a
present optional holding `v` is `Just ` followed by the rendering of `v`, and that of an absent
optional is `Nothing` (so the optional `3` renders as `Just 3`); the rendering of a left arm `a`
is `Left ` followed by that of `a`, and the rendering of a right arm `b` is `Right ` followed by
that of `b`. -/
theorem show_tagged {A : Type u} {B : Type v} :
    (∀ (showA : A → String) (v : A), ShowMaybe.show showA (some v) = "Just " ++ showA v) ∧
    (∀ showA : A → String, ShowMaybe.show showA none = "Nothing") ∧
    ShowMaybe.show ShowInt.show (some 3) = "Just 3" ∧
    (∀ (showA : A → String) (showB : B → String) (a : A),
      ShowEither.show showA showB (Sum.inl a) = "Left " ++ showA a) ∧
    (∀ (showA : A → String) (showB : B → String) (b : B),
      ShowEither.show showA showB (Sum.inr b) = "Right " ++ showB b) :=
  ⟨fun _ _ => rfl, fun _ => rfl, by decide, fun _ _ _ => rfl, fun _ _ _ => rfl⟩

/-- Claim C20. Rendering is not injective on sequences of texts, because a text is put between
double quotes as it is: the one-element sequence holding the six-character text `a", "b` and the
two-element sequence `["a", "b"]` are distinct and both render as `["a", "b"]`. -/
theorem show_not_injective :
    (["a\", \"b"] : Vec String) ≠ ["a", "b"] ∧
    String.length "a\", \"b" = 6 ∧
    ShowVec.show ShowString.show ["a\", \"b"] = "[\"a\", \"b\"]" ∧
    ShowVec.show ShowString.show ["a", "b"] = "[\"a\", \"b\"]" ∧
    (∃ xs ys : Vec String, xs ≠ ys ∧
      ShowVec.show ShowString.show xs = ShowVec.show ShowString.show ys) :=
  ⟨by decide, by decide, by decide, by decide,
    ⟨["a\", \"b"], ["a", "b"], by decide, by decide⟩⟩

end CppMonad
